import Mathlib

/-!
Shallow embedding of the schema-projection crates: the `SchemaType` IR and its
three projectors (`to_anthropic_schema`, `schema_type_to_openapi`,
`schema_type_to_wit`), with theorems checking the specified properties.

Modelling conventions:
* `serde_json::Value` is modelled by `Json`; JSON object maps are association
  lists and `Map::insert` replaces the value of an existing key in place
  (`jinsert`), which matches `serde_json`'s map at the level of key lookup.
* Rust `HashMap`s in the IR (`Object.properties`, `TaggedUnion.data_fields`)
  are association lists; their list order stands for the map's unspecified
  iteration order.
* The `match` statements of `schema_type_to_openapi` and `schema_type_to_wit`
  in the source have no arm for `TypeKind::Set` or `TypeKind::Map`; these
  projectors are therefore embedded as `Option`-valued functions, `none`
  standing for the missing arm.
* `char::is_uppercase` / `char::to_lowercase` are modelled by
  `rustIsUppercase` / `rustToLowercaseFirst`: exact on ASCII and on every
  Unicode `Uppercase` character that has no lowercase mapping (the
  `Other_Uppercase` squared / negative-circled / negative-squared capital
  blocks U+1F130..U+1F189); all other uppercase letters lowercase properly
  and the development consumes the two functions only pointwise, through a
  per-character hypothesis.
-/

set_option maxHeartbeats 1000000

/-- JSON values, modelling `serde_json::Value` as used by the projectors. -/
inductive Json : Type where
  | str (s : String) : Json
  | num (n : Nat) : Json
  | bool (b : Bool) : Json
  | arr (xs : List Json) : Json
  | obj (kvs : List (String × Json)) : Json
deriving Repr

/-- Lookup in an association list (first match), modelling `Map::get`. -/
def alook : List (String × Json) → String → Option Json
  | [], _ => none
  | (k, v) :: rest, key => if k = key then some v else alook rest key

/-- Insert into a JSON object map: replaces the value in place when the key is
present, otherwise appends.  Models `serde_json::Map::insert` at lookup level. -/
def jinsert (l : List (String × Json)) (k : String) (v : Json) : List (String × Json) :=
  if l.any (fun kv => kv.1 = k) then
    l.map (fun kv => if kv.1 = k then (k, v) else kv)
  else
    l ++ [(k, v)]

/-- Field lookup on a JSON value. -/
def jGet (j : Json) (k : String) : Option Json :=
  match j with
  | .obj kvs => alook kvs k
  | _ => none

inductive IntegerKind : Type where
  | i32 | i64 | u8 | u32 | u64 | usize
deriving Repr, DecidableEq

inductive NumberKind : Type where
  | f32 | f64
deriving Repr, DecidableEq

mutual
/-- The struct `SchemaType { kind, description }` from the IR crate. -/
inductive SchemaType : Type where
  | mk (kind : TypeKind) (description : Option String) : SchemaType

/-- The `TypeKind` enum from the IR crate. -/
inductive TypeKind : Type where
  | string : TypeKind
  | integer (k : IntegerKind) : TypeKind
  | number (k : NumberKind) : TypeKind
  | boolean : TypeKind
  | null : TypeKind
  | object (properties : List (String × SchemaType)) (required : List String) : TypeKind
  | array (items : SchemaType) : TypeKind
  | set (items : SchemaType) (ordered : Bool) : TypeKind
  | map (key : SchemaType) (value : SchemaType) (ordered : Bool) : TypeKind
  | enum (variants : List String) : TypeKind
  | taggedUnion (tag_field : String) (tag_variants : List String)
      (data_fields : List (String × SchemaType)) : TypeKind
  | variant (cases : List VariantCase) : TypeKind
  | result (ok : SchemaType) (err : SchemaType) : TypeKind
  | tuple (fields : List SchemaType) : TypeKind
  | ref (name : String) : TypeKind

/-- A single case of a `Variant`. -/
inductive VariantCase : Type where
  | mk (name : String) (data : Option SchemaType) (description : Option String) : VariantCase
end

def SchemaType.kind : SchemaType → TypeKind
  | .mk k _ => k

def SchemaType.description : SchemaType → Option String
  | .mk _ d => d

def VariantCase.name : VariantCase → String
  | .mk n _ _ => n

def VariantCase.data : VariantCase → Option SchemaType
  | .mk _ d _ => d

/-- Insert a field if absent (models `HashMap::entry(..).or_insert_with(..)`). -/
def fieldsInsertIfAbsent (acc : List (String × SchemaType)) (k : String) (v : SchemaType) :
    List (String × SchemaType) :=
  if acc.any (fun kv => kv.1 = k) then acc else acc ++ [(k, v)]

/-- Collect all unique fields from cases whose payload is an `Object`
(first occurrence of a field name wins), as in the `Variant` arm of
`to_anthropic_schema`. -/
def allFields (cases : List VariantCase) : List (String × SchemaType) :=
  cases.foldl
    (fun acc c =>
      match c with
      | .mk _ (some (.mk (.object props _) _)) _ =>
        props.foldl (fun a kv => fieldsInsertIfAbsent a kv.1 kv.2) acc
      | _ => acc)
    []

theorem fieldsInsertIfAbsent_mem {acc : List (String × SchemaType)} {k : String}
    {v : SchemaType} {kv : String × SchemaType} (h : kv ∈ fieldsInsertIfAbsent acc k v) :
    kv ∈ acc ∨ kv = (k, v) := by
  unfold fieldsInsertIfAbsent at h
  split at h
  · exact Or.inl h
  · rcases List.mem_append.mp h with h1 | h1
    · exact Or.inl h1
    · exact Or.inr (List.mem_singleton.mp h1)

theorem allFields_provenance {cases : List VariantCase} {kv : String × SchemaType}
    (h : kv ∈ allFields cases) :
    ∃ c ∈ cases, ∃ props req d n cd,
      c = .mk n (some (.mk (.object props req) d)) cd ∧ kv ∈ props := by
  unfold allFields at h
  suffices H : ∀ (cs : List VariantCase) (acc : List (String × SchemaType)),
      kv ∈ cs.foldl
        (fun acc c =>
          match c with
          | .mk _ (some (.mk (.object props _) _)) _ =>
            props.foldl (fun a kv => fieldsInsertIfAbsent a kv.1 kv.2) acc
          | _ => acc) acc →
      kv ∈ acc ∨ ∃ c ∈ cs, ∃ props req d n cd,
        c = .mk n (some (.mk (.object props req) d)) cd ∧ kv ∈ props by
    rcases H cases [] h with h1 | h1
    · exact absurd h1 (List.not_mem_nil kv)
    · exact h1
  intro cs
  induction cs with
  | nil => intro acc h; exact Or.inl h
  | cons c rest ih =>
    intro acc h
    simp only [List.foldl_cons] at h
    rcases ih _ h with h1 | h1
    · -- kv came from processing the head case (or was already in acc)
      match c with
      | .mk n (some (.mk (.object props req) d)) cd =>
        -- kv ∈ props.foldl (insert-if-absent) acc
        have H2 : ∀ (ps : List (String × SchemaType)) (a : List (String × SchemaType)),
            kv ∈ ps.foldl (fun a kv => fieldsInsertIfAbsent a kv.1 kv.2) a →
            kv ∈ a ∨ kv ∈ ps := by
          intro ps
          induction ps with
          | nil => intro a h; exact Or.inl h
          | cons p ps ih2 =>
            intro a h
            simp only [List.foldl_cons] at h
            rcases ih2 _ h with h2 | h2
            · rcases fieldsInsertIfAbsent_mem h2 with h3 | h3
              · exact Or.inl h3
              · right; rw [h3]; exact List.mem_cons_self _ _
            · right; exact List.mem_cons_of_mem _ h2
        rcases H2 props acc h1 with h2 | h2
        · exact Or.inl h2
        · right
          exact ⟨_, List.mem_cons_self _ _, props, req, d, n, cd, rfl, h2⟩
      | .mk n none cd => exact Or.inl h1
      | .mk n (some (.mk .string d2)) cd => exact Or.inl h1
      | .mk n (some (.mk (.integer _) d2)) cd => exact Or.inl h1
      | .mk n (some (.mk (.number _) d2)) cd => exact Or.inl h1
      | .mk n (some (.mk .boolean d2)) cd => exact Or.inl h1
      | .mk n (some (.mk .null d2)) cd => exact Or.inl h1
      | .mk n (some (.mk (.array _) d2)) cd => exact Or.inl h1
      | .mk n (some (.mk (.set _ _) d2)) cd => exact Or.inl h1
      | .mk n (some (.mk (.map _ _ _) d2)) cd => exact Or.inl h1
      | .mk n (some (.mk (.enum _) d2)) cd => exact Or.inl h1
      | .mk n (some (.mk (.taggedUnion _ _ _) d2)) cd => exact Or.inl h1
      | .mk n (some (.mk (.variant _) d2)) cd => exact Or.inl h1
      | .mk n (some (.mk (.result _ _) d2)) cd => exact Or.inl h1
      | .mk n (some (.mk (.tuple _) d2)) cd => exact Or.inl h1
      | .mk n (some (.mk (.ref _) d2)) cd => exact Or.inl h1
    · obtain ⟨c', hc', rest'⟩ := h1
      exact Or.inr ⟨c', List.mem_cons_of_mem _ hc', rest'⟩

theorem allFields_sizeOf {cases : List VariantCase} {kv : String × SchemaType}
    (h : kv ∈ allFields cases) : sizeOf kv.2 < sizeOf cases := by
  obtain ⟨c, hc, props, req, d, n, cd, rfl, hkv⟩ := allFields_provenance h
  rcases kv with ⟨k1, k2⟩
  have h1 := List.sizeOf_lt_of_mem hkv
  have h2 := List.sizeOf_lt_of_mem hc
  simp at h1 h2 ⊢
  omega

/-- The singleton base object holding a node's description, when present. -/
def descObj : Option String → List (String × Json)
  | some d => [(("description"), Json.str d)]
  | none => []

/-- The function `to_anthropic_schema` from the anthropic projector crate. -/
def to_anthropic_schema : SchemaType → Json
  | .mk .string d => .obj (jinsert (descObj d) ("type") (.str ("string")))
  | .mk (.integer _) d => .obj (jinsert (descObj d) ("type") (.str ("integer")))
  | .mk (.number _) d => .obj (jinsert (descObj d) ("type") (.str ("number")))
  | .mk .boolean d => .obj (jinsert (descObj d) ("type") (.str ("boolean")))
  | .mk .null d => .obj (jinsert (descObj d) ("type") (.str ("null")))
  | .mk (.object properties required) d =>
    let props := properties.attach.map (fun kv => (kv.1.1, to_anthropic_schema kv.1.2))
    let o1 := jinsert (descObj d) ("type") (.str ("object"))
    let o2 := jinsert o1 ("properties") (.obj props)
    .obj (jinsert o2 ("required") (.arr (required.map .str)))
  | .mk (.array items) d =>
    let o1 := jinsert (descObj d) ("type") (.str ("array"))
    .obj (jinsert o1 ("items") (to_anthropic_schema items))
  | .mk (.set items _) d =>
    let o1 := jinsert (descObj d) ("type") (.str ("array"))
    let o2 := jinsert o1 ("items") (to_anthropic_schema items)
    .obj (jinsert o2 ("uniqueItems") (.bool true))
  | .mk (.map key value _) d =>
    match key.kind with
    | .string =>
      let o1 := jinsert (descObj d) ("type") (.str ("object"))
      .obj (jinsert o1 ("additionalProperties") (to_anthropic_schema value))
    | _ =>
      let tupleJson : Json := .obj
        [ (("type"), .str ("array")),
          (("prefixItems"), .arr [to_anthropic_schema key, to_anthropic_schema value]),
          (("minItems"), .num 2),
          (("maxItems"), .num 2) ]
      let o1 := jinsert (descObj d) ("type") (.str ("array"))
      .obj (jinsert o1 ("items") tupleJson)
  | .mk (.enum variants) d =>
    let o1 := jinsert (descObj d) ("type") (.str ("string"))
    .obj (jinsert o1 ("enum") (.arr (variants.map .str)))
  | .mk (.taggedUnion tag_field tag_variants data_fields) d =>
    let p0 : List (String × Json) :=
      [(tag_field, .obj [(("type"), .str ("string")), (("enum"), .arr (tag_variants.map .str))])]
    let props := data_fields.attach.foldl
      (fun acc kv => jinsert acc kv.1.1 (to_anthropic_schema kv.1.2)) p0
    let o1 := jinsert (descObj d) ("type") (.str ("object"))
    let o2 := jinsert o1 ("properties") (.obj props)
    .obj (jinsert o2 ("required") (.arr [.str tag_field]))
  | .mk (.variant cases) d =>
    let tag_variants := cases.map (fun c => c.name)
    let p0 : List (String × Json) :=
      [(("type"), .obj [(("type"), .str ("string")), (("enum"), .arr (tag_variants.map .str))])]
    let props := (allFields cases).attach.foldl
      (fun acc kv => jinsert acc kv.1.1 (to_anthropic_schema kv.1.2)) p0
    let o1 := jinsert (descObj d) ("type") (.str ("object"))
    let o2 := jinsert o1 ("properties") (.obj props)
    .obj (jinsert o2 ("required") (.arr [.str ("type")]))
  | .mk (.result ok err) d =>
    let props := [(("ok"), to_anthropic_schema ok), (("error"), to_anthropic_schema err)]
    let o1 := jinsert (descObj d) ("type") (.str ("object"))
    let o2 := jinsert o1 ("properties") (.obj props)
    .obj (jinsert o2 ("description")
      (.str ("Result type - exactly one of ok or error will be present")))
  | .mk (.tuple fields) d =>
    if fields.isEmpty then
      let o1 := jinsert (descObj d) ("type") (.str ("array"))
      .obj (jinsert o1 ("maxItems") (.num 0))
    else
      let items := fields.attach.map (fun f => to_anthropic_schema f.1)
      let o1 := jinsert (descObj d) ("type") (.str ("array"))
      let o2 := jinsert o1 ("prefixItems") (.arr items)
      let o3 := jinsert o2 ("minItems") (.num fields.length)
      .obj (jinsert o3 ("maxItems") (.num fields.length))
  | .mk (.ref name) _ =>
    .obj [(("$ref"), .str (("#/definitions/") ++ name))]
termination_by s => sizeOf s
decreasing_by
  all_goals simp_wf
  all_goals
    first
    | (rcases kv with ⟨⟨k1, k2⟩, hmem⟩
       first
       | (have hlt := allFields_sizeOf hmem; simp at hlt ⊢; omega)
       | (have hlt := List.sizeOf_lt_of_mem hmem; simp at hlt ⊢; omega))
    | (rcases f with ⟨f1, hmem⟩
       have := List.sizeOf_lt_of_mem hmem; simp at this ⊢; omega)
    | (simp; omega)
    | omega

theorem attach_map_fst_snd {α β γ : Type} (l : List (α × β)) (f : β → γ) :
    l.attach.map (fun kv => (kv.1.1, f kv.1.2)) = l.map (fun kv => (kv.1, f kv.2)) :=
  List.attach_map_val l (fun kv => (kv.1, f kv.2))

theorem attach_foldl {α β : Type} (l : List α) (g : β → α → β) (init : β) :
    l.attach.foldl (fun acc x => g acc x.1) init = l.foldl g init := by
  rw [show l.attach.foldl (fun acc x => g acc x.1) init =
      (l.attach.map Subtype.val).foldl g init from (List.foldl_map _ _ _ _).symm,
    List.attach_map_subtype_val]

theorem attach_map_fn {α β : Type} (l : List α) (f : α → β) :
    l.attach.map (fun x => f x.1) = l.map f :=
  List.attach_map_val l f

/-- The function `create_tool_schema` from the anthropic projector crate. -/
def create_tool_schema (name : String) (description : String) (input_schema : SchemaType) :
    Json :=
  .obj [ (("name"), .str name),
         (("description"), .str description),
         (("input_schema"), to_anthropic_schema input_schema) ]

/-! ## The WIT projector (`schema-wit`) -/

/-- The function `integer_to_wit` from the WIT projector crate. -/
def integer_to_wit : IntegerKind → String
  | .i32 => ("s32")
  | .i64 => ("s64")
  | .u8 => ("u8")
  | .u32 => ("u32")
  | .u64 => ("u64")
  | .usize => ("u64")

/-- The function `number_to_wit` from the WIT projector crate. -/
def number_to_wit : NumberKind → String
  | .f32 => ("f32")
  | .f64 => ("f64")

/-- Modelled from Rust std: `char::is_uppercase` is the Unicode `Uppercase`
property.  Exact on ASCII and on the `Other_Uppercase` capital blocks with no
lowercase mapping (U+1F130..U+1F149 squared, U+1F150..U+1F169
negative-circled, U+1F170..U+1F189 negative-squared); the remaining uppercase
letters all have proper lowercase mappings and enter the development only
through the per-character hypothesis of the idempotence theorem. -/
def rustIsUppercase (c : Char) : Bool :=
  c.isUpper ||
  (0x1F130 ≤ c.toNat && c.toNat ≤ 0x1F149) ||
  (0x1F150 ≤ c.toNat && c.toNat ≤ 0x1F169) ||
  (0x1F170 ≤ c.toNat && c.toNat ≤ 0x1F189)

/-- Modelled from Rust std: the first character of `char::to_lowercase`
(`ch.to_lowercase().next().unwrap()` in the source).  ASCII capitals map down
by 32; characters with no lowercase mapping (including U+1F130..U+1F189) map
to themselves. -/
def rustToLowercaseFirst (c : Char) : Char :=
  Char.toLower c

/-- One step of `to_kebab_case`'s character loop. -/
def kebabStep (result : List Char) (ch : Char) : List Char :=
  if rustIsUppercase ch then
    (if result.isEmpty then result else result ++ ['-']) ++ [rustToLowercaseFirst ch]
  else if ch = '_' then
    result ++ ['-']
  else
    result ++ [ch]

/-- The function `to_kebab_case` from the WIT projector crate. -/
def to_kebab_case (s : String) : String :=
  ⟨s.data.foldl kebabStep []⟩

/-- Rust's `str::lines`: lines are split at `\n` or `\r\n` (so a `\r`
immediately before a `\n` is stripped, but a `\r` not followed by `\n` is
kept), and a final line ending yields no trailing empty line. -/
def rustLines (s : String) : List String :=
  let parts := s.splitOn ("\n")
  let body := parts.dropLast.map
    (fun line => if line.endsWith ("\r") then line.dropRight 1 else line)
  match parts.getLast? with
  | some ("") => body
  | some last => body ++ [last]
  | none => body

/-- The doc-comment block emitted for a description, one `///` line per line
of the description, at the given indentation. -/
def witDocComment (indent : String) : Option String → String
  | none => ""
  | some desc => String.join ((rustLines desc).map (fun line => indent ++ ("/// ") ++ line ++ ("\n")))

/-- The sort `fields.sort_by_key(|(name, _)| *name)` from `record_to_wit`. -/
def sortPairs (l : List (String × SchemaType)) : List (String × SchemaType) :=
  l.mergeSort (fun a b => decide (a.1 ≤ b.1))

theorem sortPairs_perm (l : List (String × SchemaType)) : List.Perm (sortPairs l) l :=
  List.mergeSort_perm l _

/-- The function `enum_to_wit` from the WIT projector crate. -/
def enum_to_wit (variants : List String) (type_name : Option String)
    (description : Option String) : String :=
  let name := match type_name with
    | some n => n
    | none => ("anonymous-enum")
  witDocComment ("") description ++ ("enum ") ++ to_kebab_case name ++ (" \x7b\n") ++
    String.join (variants.map (fun variant => ("    ") ++ to_kebab_case variant ++ (",\n"))) ++
    ("\x7d")

mutual

/-- The function `schema_type_to_wit` from the WIT projector crate.  The source `match` has
no arm for `Set` or `Map`; those inputs yield `none`. -/
def schema_type_to_wit (s : SchemaType) (type_name : Option String) : Option String :=
  match s with
  | .mk .string _ => some ("string")
  | .mk .boolean _ => some ("bool")
  | .mk .null _ => some ("unit")
  | .mk (.integer k) _ => some (integer_to_wit k)
  | .mk (.number k) _ => some (number_to_wit k)
  | .mk (.array items) _ =>
    match schema_type_to_wit items none with
    | none => none
    | some item_type => some (("list<") ++ item_type ++ (">"))
  | .mk (.object properties required) d => record_to_wit properties required type_name d
  | .mk (.enum variants) d => some (enum_to_wit variants type_name d)
  | .mk (.variant cases) d => variant_to_wit cases type_name d
  | .mk (.result ok err) _ =>
    match schema_type_to_wit ok none, schema_type_to_wit err none with
    | some ok_type, some err_type =>
      some (("result<") ++ ok_type ++ (", ") ++ err_type ++ (">"))
    | _, _ => none
  | .mk (.tuple fields) _ => tuple_to_wit fields
  | .mk (.taggedUnion _ _ _) _ =>
    some ("/* TaggedUnion not supported - use Variant instead */")
  | .mk (.ref name) _ => some (to_kebab_case name)
  | .mk (.set _ _) _ => none
  | .mk (.map _ _ _) _ => none
termination_by (sizeOf s, 1)

/-- The function `record_to_wit` from the WIT projector crate: doc comment, header, fields
sorted by name, closing brace. -/
def record_to_wit (properties : List (String × SchemaType)) (required : List String)
    (type_name : Option String) (description : Option String) : Option String :=
  let name := match type_name with
    | some n => n
    | none => ("anonymous-record")
  match witFieldsStr required (sortPairs properties) with
  | none => none
  | some body =>
    some (witDocComment ("") description ++ ("record ") ++ to_kebab_case name ++
      (" \x7b\n") ++ body ++ ("\x7d"))
termination_by (sizeOf properties, 1)
decreasing_by
  simp_wf
  have h : sizeOf (sortPairs properties) = sizeOf properties :=
    (sortPairs_perm properties).sizeOf_eq_sizeOf
  rw [h]
  exact Prod.Lex.right _ (by omega)

/-- The field loop of `record_to_wit`: renders each (already sorted) field as
`    name: type,` with optional fields wrapped in `option<...>`. -/
def witFieldsStr (required : List String) : List (String × SchemaType) → Option String
  | [] => some ("")
  | (field_name, field_schema) :: rest =>
    match schema_type_to_wit field_schema none with
    | none => none
    | some field_type =>
      let is_optional := !(required.contains field_name)
      let final_type := if is_optional then ("option<") ++ field_type ++ (">") else field_type
      match witFieldsStr required rest with
      | none => none
      | some restStr =>
        some (witDocComment ("    ") field_schema.description ++ ("    ") ++
          to_kebab_case field_name ++ (": ") ++ final_type ++ (",\n") ++ restStr)
termination_by l => (sizeOf l, 0)

/-- The function `variant_to_wit` from the WIT projector crate. -/
def variant_to_wit (cases : List VariantCase) (type_name : Option String)
    (description : Option String) : Option String :=
  let name := match type_name with
    | some n => n
    | none => ("anonymous-variant")
  match witCasesStr cases with
  | none => none
  | some body =>
    some (witDocComment ("") description ++ ("variant ") ++ to_kebab_case name ++
      (" \x7b\n") ++ body ++ ("\x7d"))
termination_by (sizeOf cases, 1)

/-- The case loop of `variant_to_wit`: unit cases render bare, data cases as
`name(type)`. -/
def witCasesStr : List VariantCase → Option String
  | [] => some ("")
  | .mk case_name dataOpt cdesc :: rest =>
    match dataOpt with
    | none =>
      match witCasesStr rest with
      | none => none
      | some restStr =>
        some (witDocComment ("    ") cdesc ++ ("    ") ++ to_kebab_case case_name ++
          (",\n") ++ restStr)
    | some data =>
      match schema_type_to_wit data none with
      | none => none
      | some data_type =>
        match witCasesStr rest with
        | none => none
        | some restStr =>
          some (witDocComment ("    ") cdesc ++ ("    ") ++ to_kebab_case case_name ++
            ("(") ++ data_type ++ ("),\n") ++ restStr)
termination_by l => (sizeOf l, 0)

/-- The function `tuple_to_wit` from the WIT projector crate. -/
def tuple_to_wit (fields : List SchemaType) : Option String :=
  if fields.isEmpty then some ("unit")
  else
    match witTupleTypes fields with
    | none => none
    | some field_types => some (("tuple<") ++ String.intercalate (", ") field_types ++ (">"))
termination_by (sizeOf fields, 1)

/-- The element loop of `tuple_to_wit`. -/
def witTupleTypes : List SchemaType → Option (List String)
  | [] => some []
  | f :: rest =>
    match schema_type_to_wit f none, witTupleTypes rest with
    | some t, some ts => some (t :: ts)
    | _, _ => none
termination_by l => (sizeOf l, 0)

end

/-- The entry point `to_wit_type::<T>()` renders `T::schema()` with `T::type_name()`. -/
def to_wit_type (s : SchemaType) (type_name : Option String) : Option String :=
  schema_type_to_wit s type_name

/-! ## The OpenAPI projector (`schema-openapi`) -/

/-- The assignment `value[key] = v` on a JSON value (an object). -/
def jset (j : Json) (k : String) (v : Json) : Json :=
  match j with
  | .obj kvs => .obj (jinsert kvs k v)
  | other => other

/-- The final description merge of `schema_type_to_openapi`:
`result["description"] = json!(desc)` when the node carries a description. -/
def withDescription (j : Json) : Option String → Json
  | none => j
  | some desc => jset j ("description") (.str desc)

mutual

/-- The function `schema_type_to_openapi` from the OpenAPI projector crate.  The source
`match` has no arm for `Set` or `Map`; those inputs yield `none`. -/
def schema_type_to_openapi (s : SchemaType) : Option Json :=
  match s with
  | .mk .string d => some (withDescription (.obj [(("type"), .str ("string"))]) d)
  | .mk (.number _) d => some (withDescription (.obj [(("type"), .str ("number"))]) d)
  | .mk (.integer _) d => some (withDescription (.obj [(("type"), .str ("integer"))]) d)
  | .mk .boolean d => some (withDescription (.obj [(("type"), .str ("boolean"))]) d)
  | .mk .null d => some (withDescription (.obj [(("type"), .str ("null"))]) d)
  | .mk (.array items) d =>
    match schema_type_to_openapi items with
    | none => none
    | some i => some (withDescription (.obj [(("type"), .str ("array")), (("items"), i)]) d)
  | .mk (.object properties required) d =>
    match openapiProps properties with
    | none => none
    | some props =>
      let obj := Json.obj [(("type"), .str ("object")), (("properties"), .obj props)]
      let obj := if required.isEmpty then obj
        else jset obj ("required") (.arr (required.map .str))
      some (withDescription obj d)
  | .mk (.enum variants) d =>
    some (withDescription
      (.obj [(("type"), .str ("string")), (("enum"), .arr (variants.map .str))]) d)
  | .mk (.taggedUnion tag_field tag_variants data_fields) d =>
    match openapiProps data_fields with
    | none => none
    | some props0 =>
      -- the per-branch property map is identical for every branch
      let schemas := tag_variants.map (fun variant =>
        Json.obj [ (("type"), .str ("object")),
          (("properties"), .obj (jinsert props0 tag_field
            (.obj [(("type"), .str ("string")), (("enum"), .arr [.str variant])]))),
          (("required"), .arr [.str tag_field]) ])
      some (withDescription
        (.obj [ (("oneOf"), .arr schemas),
                (("discriminator"), .obj [(("propertyName"), .str tag_field)]) ]) d)
  | .mk (.variant cases) d =>
    match openapiCases cases with
    | none => none
    | some schemas => some (withDescription (.obj [(("oneOf"), .arr schemas)]) d)
  | .mk (.result ok err) d =>
    match schema_type_to_openapi ok, schema_type_to_openapi err with
    | some okj, some errj =>
      some (withDescription
        (.obj [(("oneOf"), .arr
          [ .obj [ (("type"), .str ("object")),
                   (("properties"), .obj [(("ok"), okj)]),
                   (("required"), .arr [.str ("ok")]) ],
            .obj [ (("type"), .str ("object")),
                   (("properties"), .obj [(("error"), errj)]),
                   (("required"), .arr [.str ("error")]) ] ])]) d)
    | _, _ => none
  | .mk (.tuple fields) d =>
    if fields.isEmpty then
      some (withDescription (.obj [(("type"), .str ("array")), (("maxItems"), .num 0)]) d)
    else
      match openapiList fields with
      | none => none
      | some items =>
        some (withDescription
          (.obj [ (("type"), .str ("array")),
                  (("prefixItems"), .arr items),
                  (("minItems"), .num fields.length),
                  (("maxItems"), .num fields.length) ]) d)
  | .mk (.ref name) d =>
    some (withDescription (.obj [(("$ref"), .str (("#/components/schemas/") ++ name))]) d)
  | .mk (.set _ _) _ => none
  | .mk (.map _ _ _) _ => none
termination_by (sizeOf s, 1)

/-- The property loop shared by the `Object` and `TaggedUnion` arms. -/
def openapiProps : List (String × SchemaType) → Option (List (String × Json))
  | [] => some []
  | (k, v) :: rest =>
    match schema_type_to_openapi v, openapiProps rest with
    | some vj, some restj => some ((k, vj) :: restj)
    | _, _ => none
termination_by l => (sizeOf l, 0)

/-- The per-case branch of the `Variant` arm of `schema_type_to_openapi`. -/
def openapiVariantBranch : VariantCase → Option Json
  | .mk case_name none _ =>
    some (.obj [(("type"), .str ("string")), (("const"), .str case_name)])
  | .mk case_name (some data) cdesc =>
    match schema_type_to_openapi data with
    | none => none
    | some data_schema =>
      let obj := Json.obj
        [ (("type"), .str ("object")),
          (("properties"), .obj
            [ (("type"), .obj [(("type"), .str ("string")), (("const"), .str case_name)]),
              (("data"), data_schema) ]),
          (("required"), .arr [.str ("type"), .str ("data")]) ]
      some (match cdesc with
        | some dd => jset obj ("description") (.str dd)
        | none => obj)
termination_by c => (sizeOf c, 1)

/-- The case loop of the `Variant` arm of `schema_type_to_openapi`. -/
def openapiCases : List VariantCase → Option (List Json)
  | [] => some []
  | c :: rest =>
    match openapiVariantBranch c, openapiCases rest with
    | some j, some js => some (j :: js)
    | _, _ => none
termination_by l => (sizeOf l, 0)

/-- The element loop of the `Tuple` arm of `schema_type_to_openapi`. -/
def openapiList : List SchemaType → Option (List Json)
  | [] => some []
  | f :: rest =>
    match schema_type_to_openapi f, openapiList rest with
    | some j, some js => some (j :: js)
    | _, _ => none
termination_by l => (sizeOf l, 0)

end

/-! ## Character-level facts for `to_kebab_case` -/

/-- C1: the spec claims all three projectors are total over the full
`TypeKind` domain including `Set` and `Map`.  `to_anthropic_schema` is, but
the `match` statements of `schema_type_to_openapi` and `schema_type_to_wit`
have no `Set` or `Map` arm at all, so those projectors have no defined
mapping there (the Rust `match` is non-exhaustive). -/
theorem C1_openapi_wit_set_map_undefined :
    schema_type_to_openapi (.mk (.set (.mk .string none) false) none) = none ∧
    schema_type_to_openapi (.mk (.map (.mk .string none) (.mk .boolean none) false) none)
      = none ∧
    schema_type_to_wit (.mk (.set (.mk .string none) false) none) none = none ∧
    schema_type_to_wit (.mk (.map (.mk .string none) (.mk .boolean none) false) none) none
      = none ∧
    to_anthropic_schema (.mk (.set (.mk .string none) false) none) =
      .obj [ (("type"), .str ("array")),
             (("items"), .obj [(("type"), .str ("string"))]),
             (("uniqueItems"), .bool true) ] := by
  refine ⟨?_, ?_, ?_, ?_, ?_⟩ <;>
    simp [schema_type_to_openapi, schema_type_to_wit, to_anthropic_schema, jinsert, descObj]

/-- C3: the spec claims the WIT projector renders `Set` as a `list<...>` type
and `Map` as a list of 2-tuples; in the source `schema_type_to_wit` has no
`Set` or `Map` arm at all, so neither rendering exists. -/
theorem C3_wit_set_map_missing :
    schema_type_to_wit (.mk (.set (.mk (.integer .u32) none) true) none) none = none ∧
    schema_type_to_wit
      (.mk (.map (.mk (.integer .u32) none) (.mk .string none) true) none) none = none := by
  constructor <;> simp [schema_type_to_wit]

/-! ## C8: the empty tuple -/

/-- C8: on an empty `Tuple` both JSON projectors emit `type: "array"` and
`maxItems: 0` with no `prefixItems` and no `minItems` key, and the WIT
projector emits the unit-type keyword. -/
theorem C8_empty_tuple (d : Option String) (tn : Option String) :
    jGet (to_anthropic_schema (.mk (.tuple []) d)) ("type") = some (.str ("array")) ∧
    jGet (to_anthropic_schema (.mk (.tuple []) d)) ("maxItems") = some (.num 0) ∧
    jGet (to_anthropic_schema (.mk (.tuple []) d)) ("prefixItems") = none ∧
    jGet (to_anthropic_schema (.mk (.tuple []) d)) ("minItems") = none ∧
    (∃ j, schema_type_to_openapi (.mk (.tuple []) d) = some j ∧
      jGet j ("type") = some (.str ("array")) ∧
      jGet j ("maxItems") = some (.num 0) ∧
      jGet j ("prefixItems") = none ∧
      jGet j ("minItems") = none) ∧
    schema_type_to_wit (.mk (.tuple []) d) tn = some ("unit") := by
  cases d <;>
    simp [to_anthropic_schema, schema_type_to_openapi, schema_type_to_wit, tuple_to_wit,
      jinsert, descObj, jGet, alook, withDescription, jset]

/-! ## C9: the `Result` description override -/

/-- C9: on a `Result` node the anthropic projector's output carries the fixed
description string (overriding any description on the node itself) and no
`required` key. -/
theorem C9_result_description (ok err : SchemaType) (d : Option String) :
    jGet (to_anthropic_schema (.mk (.result ok err) d)) ("description") =
      some (.str ("Result type - exactly one of ok or error will be present")) ∧
    jGet (to_anthropic_schema (.mk (.result ok err) d)) ("required") = none := by
  cases d <;>
    simp [to_anthropic_schema, jinsert, descObj, jGet, alook]

/-! ## C4: determinism of record rendering -/

theorem sortPairs_sorted (l : List (String × SchemaType)) :
    List.Pairwise (fun a b : String × SchemaType => a.1 ≤ b.1) (sortPairs l) := by
  have htr : ∀ a b c : String × SchemaType,
      decide (a.1 ≤ b.1) → decide (b.1 ≤ c.1) → decide (a.1 ≤ c.1) := by
    intro a b c hab hbc
    simp only [decide_eq_true_eq] at hab hbc ⊢
    exact le_trans hab hbc
  have hto : ∀ a b : String × SchemaType,
      (decide (a.1 ≤ b.1) || decide (b.1 ≤ a.1)) = true := by
    intro a b
    simp only [Bool.or_eq_true, decide_eq_true_eq]
    exact le_total a.1 b.1
  have h := List.sorted_mergeSort htr hto l
  exact h.imp (fun hab => by simpa using hab)

/-- Two sorted pair lists that are permutations of each other and have
duplicate-free keys are equal. -/
theorem sorted_nodup_unique :
    ∀ {l₁ l₂ : List (String × SchemaType)},
      List.Perm l₁ l₂ → (l₁.map Prod.fst).Nodup →
      List.Pairwise (fun a b : String × SchemaType => a.1 ≤ b.1) l₁ →
      List.Pairwise (fun a b : String × SchemaType => a.1 ≤ b.1) l₂ →
      l₁ = l₂ := by
  intro l₁
  induction l₁ with
  | nil =>
    intro l₂ hperm _ _ _
    exact (hperm.nil_eq).symm ▸ rfl
  | cons a t₁ ih =>
    intro l₂ hperm hnd hs₁ hs₂
    match l₂ with
    | [] => exact absurd hperm.symm.nil_eq (by simp)
    | b :: t₂ =>
      have hab : a = b := by
        by_contra hne
        have ha2 : a ∈ b :: t₂ := hperm.mem_iff.mp (List.mem_cons_self _ _)
        have hb1 : b ∈ a :: t₁ := hperm.symm.mem_iff.mp (List.mem_cons_self _ _)
        have ha2' : a ∈ t₂ := by
          rcases List.mem_cons.mp ha2 with h | h
          · exact absurd h hne
          · exact h
        have hb1' : b ∈ t₁ := by
          rcases List.mem_cons.mp hb1 with h | h
          · exact absurd h.symm hne
          · exact h
        have hle1 : a.1 ≤ b.1 := (List.pairwise_cons.mp hs₁).1 b hb1'
        have hle2 : b.1 ≤ a.1 := (List.pairwise_cons.mp hs₂).1 a ha2'
        have hkey : a.1 = b.1 := le_antisymm hle1 hle2
        have hnotin : a.1 ∉ t₁.map Prod.fst := (List.nodup_cons.mp hnd).1
        exact hnotin (hkey ▸ List.mem_map_of_mem Prod.fst hb1')
      subst hab
      have hperm' : List.Perm t₁ t₂ := hperm.cons_inv
      have := ih hperm' (List.nodup_cons.mp hnd).2
        (List.pairwise_cons.mp hs₁).2 (List.pairwise_cons.mp hs₂).2
      rw [this]

theorem sortPairs_congr {p₁ p₂ : List (String × SchemaType)}
    (hperm : List.Perm p₁ p₂) (hnd : (p₁.map Prod.fst).Nodup) :
    sortPairs p₁ = sortPairs p₂ := by
  refine sorted_nodup_unique
    ((sortPairs_perm p₁).trans (hperm.trans (sortPairs_perm p₂).symm)) ?_
    (sortPairs_sorted p₁) (sortPairs_sorted p₂)
  exact (((sortPairs_perm p₁).map Prod.fst).nodup_iff).mpr hnd

/-- C4: the WIT projector's output on an `Object` node is invariant under
reordering of the property map (set-equal property maps with duplicate-free
keys and equal required lists render byte-identically). -/
theorem C4_record_render_deterministic (p₁ p₂ : List (String × SchemaType))
    (R : List String) (tn d : Option String)
    (hperm : List.Perm p₁ p₂) (hnd : (p₁.map Prod.fst).Nodup) :
    schema_type_to_wit (.mk (.object p₁ R) d) tn =
      schema_type_to_wit (.mk (.object p₂ R) d) tn := by
  rw [schema_type_to_wit, schema_type_to_wit, record_to_wit.eq_def, record_to_wit.eq_def,
    sortPairs_congr hperm hnd]

/-- Witness for C4 at a concrete pair of set-equal property lists. -/
theorem C4_record_render_deterministic_witness :
    schema_type_to_wit
      (.mk (.object [(("b"), .mk .string none), (("a"), .mk .boolean none)] [("a")]) none)
      none =
    schema_type_to_wit
      (.mk (.object [(("a"), .mk .boolean none), (("b"), .mk .string none)] [("a")]) none)
      none :=
  C4_record_render_deterministic _ _ _ _ _
    (List.Perm.swap _ _ _) (by decide)

/-! ## C5: property/required fidelity of all three projectors -/

/-- Attach-free form of the `Object` arm of `to_anthropic_schema`. -/
theorem to_anthropic_object (props : List (String × SchemaType)) (R : List String)
    (d : Option String) :
    to_anthropic_schema (.mk (.object props R) d) =
      .obj (jinsert
        (jinsert (jinsert (descObj d) ("type") (.str ("object")))
          ("properties") (.obj (props.map (fun kv => (kv.1, to_anthropic_schema kv.2)))))
        ("required") (.arr (R.map .str))) := by
  rw [to_anthropic_schema]
  rw [attach_map_fst_snd]

theorem openapiProps_keys :
    ∀ {l : List (String × SchemaType)} {pj : List (String × Json)},
      openapiProps l = some pj → pj.map Prod.fst = l.map Prod.fst := by
  intro l
  induction l with
  | nil =>
    intro pj h
    simp [openapiProps] at h
    subst h; rfl
  | cons kv rest ih =>
    intro pj h
    rw [openapiProps] at h
    split at h
    · rename_i vj restj hv hr
      cases h
      simp [ih hr]
    · exact absurd h (by simp)

theorem stringJoin_cons (s : String) (rest : List String) :
    String.join (s :: rest) = s ++ String.join rest := by
  simp [String.join_eq, String.ext_iff]

/-- The per-field text of the WIT record rendering, phrased the way the claim
puts it: the field is wrapped in `option<...>` exactly when its name is not in
the required list. -/
def witFieldText (R : List String) (kv : String × SchemaType) (ft : String) : String :=
  witDocComment ("    ") kv.2.description ++ ("    ") ++ to_kebab_case kv.1 ++ (": ") ++
    (if kv.1 ∈ R then ft else ("option<") ++ ft ++ (">")) ++ (",\n")

theorem witFieldsStr_spec (R : List String) :
    ∀ (l : List (String × SchemaType)) (out : String), witFieldsStr R l = some out →
      ∃ fts : List String,
        List.Forall₂ (fun kv ft => schema_type_to_wit kv.2 none = some ft) l fts ∧
        out = String.join (List.zipWith (witFieldText R) l fts) := by
  intro l
  induction l with
  | nil =>
    intro out h
    rw [witFieldsStr] at h
    refine ⟨[], List.Forall₂.nil, ?_⟩
    simp at h
    simp [← h, String.join]
  | cons kv rest ih =>
    intro out h
    match kv with
    | (field_name, field_schema) =>
      rw [witFieldsStr] at h
      split at h
      · exact absurd h (by simp)
      · rename_i field_type hft
        split at h
        · exact absurd h (by simp)
        · rename_i restStr hrest
          obtain ⟨fts, hfa, hout⟩ := ih restStr hrest
          refine ⟨field_type :: fts, List.Forall₂.cons hft hfa, ?_⟩
          simp only [Option.some_inj] at h
          rw [← h, List.zipWith_cons_cons, stringJoin_cons, hout]
          congr 1
          unfold witFieldText
          have hcont : (R.contains field_name) = decide (field_name ∈ R) := by
            simp [List.contains]
          rw [hcont]
          by_cases hmem : field_name ∈ R
          · simp [hmem]
          · simp [hmem]

/-- What C5 asserts, for one `Object` node: every projector lists exactly the
property names as properties and exactly the required list as required (for
the WIT projector: the fields, sorted, are exactly the property names, and a
field is `option<...>`-wrapped exactly when it is not required). -/
def objectFidelity (props : List (String × SchemaType)) (R : List String)
    (d tn : Option String) : Prop :=
  (∃ pj, jGet (to_anthropic_schema (.mk (.object props R) d)) ("properties")
      = some (.obj pj) ∧ pj.map Prod.fst = props.map Prod.fst) ∧
  jGet (to_anthropic_schema (.mk (.object props R) d)) ("required")
    = some (.arr (R.map .str)) ∧
  (∀ j, schema_type_to_openapi (.mk (.object props R) d) = some j →
    (∃ pj, jGet j ("properties") = some (.obj pj) ∧
      pj.map Prod.fst = props.map Prod.fst) ∧
    jGet j ("required") = (if R.isEmpty then none else some (.arr (R.map .str)))) ∧
  (∀ out, schema_type_to_wit (.mk (.object props R) d) tn = some out →
    ∃ fts : List String,
      List.Forall₂ (fun kv ft => schema_type_to_wit kv.2 none = some ft)
        (sortPairs props) fts ∧
      List.Perm ((sortPairs props).map Prod.fst) (props.map Prod.fst) ∧
      out = witDocComment ("") d ++ ("record ") ++
        to_kebab_case (match tn with | some n => n | none => ("anonymous-record")) ++
        (" \x7b\n") ++ String.join (List.zipWith (witFieldText R) (sortPairs props) fts) ++
        ("\x7d"))

/-- C5: for every `Object` node with duplicate-free property names and
required ⊆ property names, each projector's output lists exactly the property
names as properties/fields and exactly the required list as required. -/
theorem C5_object_fidelity (props : List (String × SchemaType)) (R : List String)
    (d tn : Option String)
    (hnd : (props.map Prod.fst).Nodup)
    (hsub : ∀ r ∈ R, r ∈ props.map Prod.fst) :
    objectFidelity props R d tn := by
  refine ⟨?_, ?_, ?_, ?_⟩
  · refine ⟨props.map (fun kv => (kv.1, to_anthropic_schema kv.2)), ?_, by simp⟩
    rw [to_anthropic_object]
    cases d <;> simp [jinsert, descObj, jGet, alook]
  · rw [to_anthropic_object]
    cases d <;> simp [jinsert, descObj, jGet, alook]
  · intro j hj
    rw [schema_type_to_openapi] at hj
    split at hj
    · exact absurd hj (by simp)
    · rename_i pj hpj
      simp only [Option.some_inj] at hj
      subst hj
      constructor
      · refine ⟨pj, ?_, openapiProps_keys hpj⟩
        cases d <;> rcases R with _ | ⟨r, rs⟩ <;>
          simp [withDescription, jset, jinsert, jGet, alook]
      · cases d <;> rcases R with _ | ⟨r, rs⟩ <;>
          simp [withDescription, jset, jinsert, jGet, alook]
  · intro out hout
    rw [schema_type_to_wit, record_to_wit.eq_def] at hout
    rcases hws : witFieldsStr R (sortPairs props) with _ | body
    · rw [hws] at hout
      cases tn <;> simp at hout
    · rw [hws] at hout
      obtain ⟨fts, hfa, hjoin⟩ := witFieldsStr_spec R _ body hws
      refine ⟨fts, hfa, (sortPairs_perm props).map Prod.fst, ?_⟩
      cases tn <;> simp only [Option.some_inj] at hout <;> rw [← hout, hjoin]

/-- Witness for C5 at the round-trip record of the spec
(`selector: String` required, `index: Integer` optional). -/
theorem C5_object_fidelity_witness :
    objectFidelity [(("selector"), .mk .string none), (("index"), .mk (.integer .i32) none)]
      [("selector")] none none :=
  C5_object_fidelity _ _ _ _ (by decide) (by decide)

/-! ## C6: the OpenAPI `Variant` projection -/

theorem openapiCases_spec :
    ∀ {cs : List VariantCase} {bs : List Json}, openapiCases cs = some bs →
      List.Forall₂ (fun c b => openapiVariantBranch c = some b) cs bs := by
  intro cs
  induction cs with
  | nil =>
    intro bs h
    simp [openapiCases] at h
    subst h
    exact List.Forall₂.nil
  | cons c rest ih =>
    intro bs h
    rw [openapiCases] at h
    split at h
    · rename_i b bs' hb hbs
      cases h
      exact List.Forall₂.cons hb (ih hbs)
    · exact absurd h (by simp)

/-- What the amended C6 asserts: the `oneOf` array has one branch per case in
order; a unit case renders as the const-string object with its description
dropped; a data case renders as the tagged object with `required =
["type","data"]` and its description, when present, attached. -/
def variantOneOf (cases : List VariantCase) (d : Option String) : Prop :=
  (∀ j, schema_type_to_openapi (.mk (.variant cases) d) = some j →
    ∃ bs, jGet j ("oneOf") = some (.arr bs) ∧
      List.Forall₂ (fun c b => openapiVariantBranch c = some b) cases bs ∧
      bs.length = cases.length) ∧
  (∀ case_name cdesc, openapiVariantBranch (.mk case_name none cdesc) =
    some (.obj [(("type"), .str ("string")), (("const"), .str case_name)])) ∧
  (∀ case_name data cdesc dj, schema_type_to_openapi data = some dj →
    openapiVariantBranch (.mk case_name (some data) cdesc) =
      some (.obj
        ([ (("type"), .str ("object")),
           (("properties"), .obj
             [ (("type"), .obj [(("type"), .str ("string")), (("const"), .str case_name)]),
               (("data"), dj) ]),
           (("required"), .arr [.str ("type"), .str ("data")]) ] ++
         (match cdesc with
          | some dd => [(("description"), .str dd)]
          | none => []))))

/-- C6 (amended): per-case `oneOf` branches in IR order, with the stated unit
and data shapes; a data case's description attaches to its branch, while a
unit case's description is dropped. -/
theorem C6_variant_oneOf (cases : List VariantCase) (d : Option String) :
    variantOneOf cases d := by
  refine ⟨?_, ?_, ?_⟩
  · intro j hj
    rw [schema_type_to_openapi] at hj
    rcases hcs : openapiCases cases with _ | bs
    · rw [hcs] at hj
      simp at hj
    · rw [hcs] at hj
      simp only [Option.some_inj] at hj
      subst hj
      have hfa := openapiCases_spec hcs
      refine ⟨bs, ?_, hfa, hfa.length_eq.symm⟩
      cases d <;> simp [withDescription, jset, jinsert, jGet, alook]
  · intro case_name cdesc
    rw [openapiVariantBranch]
  · intro case_name data cdesc dj hdj
    rw [openapiVariantBranch, hdj]
    cases cdesc <;> simp [jset, jinsert]

/-- C6 counterexample: a unit case carrying a description renders as a branch
with no `description` key, so the claim that every case's description is
attached to its branch fails. -/
theorem C6_counterexample :
    schema_type_to_openapi
      (.mk (.variant [.mk ("click") none (some ("Click the element"))]) none) =
      some (.obj [(("oneOf"),
        .arr [.obj [(("type"), .str ("string")), (("const"), .str ("click"))]])]) ∧
    jGet (.obj [(("type"), .str ("string")), (("const"), .str ("click"))]) ("description")
      = none := by
  constructor
  · simp [schema_type_to_openapi, openapiCases, openapiVariantBranch, withDescription]
  · simp [jGet, alook]

/-! ## C7: the anthropic `Variant` flattening -/

theorem attach_foldl_jinsert (l : List (String × SchemaType))
    (init : List (String × Json)) :
    l.attach.foldl (fun acc kv => jinsert acc kv.1.1 (to_anthropic_schema kv.1.2)) init
      = l.foldl (fun acc kv => jinsert acc kv.1 (to_anthropic_schema kv.2)) init := by
  conv_rhs => rw [← List.attach_map_subtype_val l]
  rw [List.foldl_map]

/-- Attach-free form of the `Variant` arm of `to_anthropic_schema`. -/
theorem to_anthropic_variant (cases : List VariantCase) (d : Option String) :
    to_anthropic_schema (.mk (.variant cases) d) =
      .obj (jinsert
        (jinsert (jinsert (descObj d) ("type") (.str ("object")))
          ("properties") (.obj ((allFields cases).foldl
            (fun acc kv => jinsert acc kv.1 (to_anthropic_schema kv.2))
            [(("type"), .obj [(("type"), .str ("string")),
              (("enum"), .arr ((cases.map (fun c => c.name)).map .str))])])))
        ("required") (.arr [.str ("type")])) := by
  rw [to_anthropic_schema]
  rw [attach_foldl_jinsert]

theorem alook_append (l₁ l₂ : List (String × Json)) (k : String) :
    alook (l₁ ++ l₂) k = match alook l₁ k with
      | some v => some v
      | none => alook l₂ k := by
  induction l₁ with
  | nil => simp [alook]
  | cons kv rest ih =>
    rcases kv with ⟨k₁, v₁⟩
    by_cases h : k₁ = k
    · simp [alook, h]
    · simp [alook, h, ih]

theorem alook_map_replace (l : List (String × Json)) (k k' : String) (v : Json)
    (h : k ≠ k') :
    alook (l.map (fun kv => if kv.1 = k' then (k', v) else kv)) k = alook l k := by
  induction l with
  | nil => rfl
  | cons kv rest ih =>
    rcases kv with ⟨k₁, v₁⟩
    rw [List.map_cons]
    by_cases h1 : k₁ = k'
    · subst h1
      rw [if_pos rfl]
      show alook ((k₁, v) :: _) k = alook ((k₁, v₁) :: rest) k
      have hne : ¬ (k₁ = k) := fun hh => h (hh ▸ rfl)
      simp only [alook, if_neg hne]
      exact ih
    · rw [if_neg h1]
      by_cases h2 : k₁ = k
      · simp only [alook, if_pos h2]
      · simp only [alook, if_neg h2]
        exact ih

theorem alook_jinsert_ne {l : List (String × Json)} {k k' : String} {v : Json}
    (h : k ≠ k') : alook (jinsert l k' v) k = alook l k := by
  unfold jinsert
  split
  · exact alook_map_replace l k k' v h
  · rw [alook_append]
    have h1 : alook [(k', v)] k = none := by
      simp only [alook, if_neg (Ne.symm h)]
    cases halt : alook l k
    · simp only [h1]
    · rfl

theorem foldl_jinsert_alook_notmem (g : SchemaType → Json) :
    ∀ (fields : List (String × SchemaType)) (acc : List (String × Json)) (k : String),
      k ∉ fields.map Prod.fst →
      alook (fields.foldl (fun a kv => jinsert a kv.1 (g kv.2)) acc) k = alook acc k := by
  intro fields
  induction fields with
  | nil => intro acc k _; rfl
  | cons kv rest ih =>
    intro acc k hk
    simp only [List.map_cons, List.mem_cons] at hk
    push_neg at hk
    rw [List.foldl_cons, ih _ _ hk.2, alook_jinsert_ne hk.1]

theorem jinsert_keys (l : List (String × Json)) (k : String) (v : Json) :
    (jinsert l k v).map Prod.fst =
      if l.any (fun kv => kv.1 = k) then l.map Prod.fst else l.map Prod.fst ++ [k] := by
  unfold jinsert
  split
  · rw [List.map_map]
    apply List.map_congr_left
    intro kv _
    by_cases h : kv.1 = k
    · simp [h]
    · simp [h]
  · simp

theorem jinsert_keys_mem {l : List (String × Json)} {k x : String} {v : Json} :
    x ∈ (jinsert l k v).map Prod.fst ↔ x ∈ l.map Prod.fst ∨ x = k := by
  rw [jinsert_keys]
  split
  · rename_i hany
    have hk : k ∈ l.map Prod.fst := by
      simp only [List.any_eq_true, decide_eq_true_eq] at hany
      obtain ⟨kv, hkv, he⟩ := hany
      exact he ▸ List.mem_map_of_mem Prod.fst hkv
    constructor
    · exact Or.inl
    · rintro (hx | rfl)
      · exact hx
      · exact hk
  · simp

theorem foldl_jinsert_keys_mem (g : SchemaType → Json) :
    ∀ (fields : List (String × SchemaType)) (acc : List (String × Json)) (x : String),
      x ∈ (fields.foldl (fun a kv => jinsert a kv.1 (g kv.2)) acc).map Prod.fst ↔
        x ∈ acc.map Prod.fst ∨ x ∈ fields.map Prod.fst := by
  intro fields
  induction fields with
  | nil => intro acc x; simp
  | cons kv rest ih =>
    intro acc x
    rw [List.foldl_cons, ih, jinsert_keys_mem]
    simp only [List.map_cons, List.mem_cons]
    tauto

/-- What the amended C7 asserts for a `Variant` node none of whose
object-payload fields is itself named `"type"`: the output is a flat object
whose `"type"` property is the case-name enum discriminator, whose other
properties are exactly the fields collected from object-payload cases (cases
with non-object or absent payloads contribute none), and whose required list
is exactly `["type"]`. -/
def variantFlattening (cases : List VariantCase) (d : Option String) : Prop :=
  jGet (to_anthropic_schema (.mk (.variant cases) d)) ("required")
    = some (.arr [.str ("type")]) ∧
  (∃ pj, jGet (to_anthropic_schema (.mk (.variant cases) d)) ("properties")
      = some (.obj pj) ∧
    alook pj ("type") = some (.obj [(("type"), .str ("string")),
      (("enum"), .arr ((cases.map (fun c => c.name)).map .str))]) ∧
    (∀ x, x ∈ pj.map Prod.fst ↔ (x = ("type") ∨ x ∈ (allFields cases).map Prod.fst)) ∧
    (∀ kv ∈ allFields cases, ∃ c ∈ cases, ∃ props req dd n cd,
      c = .mk n (some (.mk (.object props req) dd)) cd ∧ kv ∈ props))

/-- C7 (amended): holds whenever no object-payload case carries a field
literally named `"type"`; such a field would overwrite the discriminator
(see the counterexample). -/
theorem C7_variant_flattening (cases : List VariantCase) (d : Option String)
    (htype : ("type") ∉ (allFields cases).map Prod.fst) :
    variantFlattening cases d := by
  rw [variantFlattening, to_anthropic_variant]
  refine ⟨?_, ?_⟩
  · cases d <;> simp [jinsert, descObj, jGet, alook]
  · refine ⟨(allFields cases).foldl
      (fun acc kv => jinsert acc kv.1 (to_anthropic_schema kv.2))
      [(("type"), .obj [(("type"), .str ("string")),
        (("enum"), .arr ((cases.map (fun c => c.name)).map .str))])], ?_, ?_, ?_, ?_⟩
    · cases d <;> simp [jinsert, descObj, jGet, alook]
    · rw [foldl_jinsert_alook_notmem _ _ _ _ htype]
      simp [alook]
    · intro x
      rw [foldl_jinsert_keys_mem]
      constructor
      · rintro (hx | hx)
        · left; simpa using hx
        · right; exact hx
      · rintro (rfl | hx)
        · left; simp
        · right; exact hx
    · intro kv hkv
      exact allFields_provenance hkv

/-- Witness for C7 on a two-case variant (one object payload, one unit). -/
theorem C7_variant_flattening_witness :
    variantFlattening
      [ .mk ("fill") (some (.mk (.object [(("value"), .mk .string none)] [("value")]) none))
          none,
        .mk ("click") none none ] none :=
  C7_variant_flattening _ _ (by decide)

/-- C7 counterexample: an object-payload field named `"type"` overwrites the
discriminator property, so the output's `"type"` property is not the case-name
enum (it has no `enum` key at all). -/
theorem C7_counterexample :
    jGet (to_anthropic_schema (.mk (.variant
      [.mk ("a") (some (.mk (.object [(("type"), .mk .boolean none)] []) none)) none])
      none)) ("properties") =
      some (.obj [(("type"), .obj [(("type"), .str ("boolean"))])]) ∧
    jGet (.obj [(("type"), .str ("boolean"))]) ("enum") = none := by
  constructor
  · rw [to_anthropic_variant]
    simp [allFields, fieldsInsertIfAbsent, jinsert, descObj, jGet, alook,
      to_anthropic_schema]
  · simp [jGet, alook]

/-! ## C2: the anthropic projection never introduces `oneOf` -/

/-- Does the first character list occur at the head of the second? -/
def startsWithChars : List Char → List Char → Bool
  | [], _ => true
  | _ :: _, [] => false
  | a :: as, b :: bs => a == b && startsWithChars as bs

/-- Does the first character list occur contiguously anywhere in the second? -/
def containsSeq (t : List Char) : List Char → Bool
  | [] => t.isEmpty
  | c :: rest => startsWithChars t (c :: rest) || containsSeq t rest

/-- Does the string contain the substring `oneOf`? -/
def hasOneOf (s : String) : Bool := containsSeq ("oneOf").data s.data

def VariantCase.description : VariantCase → Option String
  | .mk _ _ d => d

/-- All keys and string literals occurring anywhere in a JSON value. -/
def jStrings : Json → List String
  | .str s => [s]
  | .num _ => []
  | .bool _ => []
  | .arr xs => xs.attach.foldr (fun x acc => jStrings x.1 ++ acc) []
  | .obj kvs => kvs.attach.foldr (fun kv acc => (kv.1.1 :: jStrings kv.1.2) ++ acc) []
termination_by j => sizeOf j
decreasing_by
  all_goals
    first
    | (rcases x with ⟨x1, hmem⟩
       have := List.sizeOf_lt_of_mem hmem; simp at this ⊢; omega)
    | (rcases kv with ⟨⟨k1, k2⟩, hmem⟩
       have := List.sizeOf_lt_of_mem hmem; simp at this ⊢; omega)

def optStrings : Option String → List String
  | some d => [d]
  | none => []

/-- All strings embedded in a `SchemaType`: descriptions, property names,
required names, enum variants, tag fields/variants, case names and `Ref`
names. -/
def sStrings : SchemaType → List String
  | .mk kind d =>
    optStrings d ++
    (match kind with
     | .string => []
     | .integer _ => []
     | .number _ => []
     | .boolean => []
     | .null => []
     | .object properties required =>
       properties.attach.foldr (fun kv acc => (kv.1.1 :: sStrings kv.1.2) ++ acc) [] ++
         required
     | .array items => sStrings items
     | .set items _ => sStrings items
     | .map key value _ => sStrings key ++ sStrings value
     | .enum variants => variants
     | .taggedUnion tag_field tag_variants data_fields =>
       tag_field :: tag_variants ++
         data_fields.attach.foldr (fun kv acc => (kv.1.1 :: sStrings kv.1.2) ++ acc) []
     | .variant cases =>
       cases.attach.foldr (fun c acc =>
         ((match hm : c.1.data with
           | some data => (c.1.name :: optStrings c.1.description) ++ sStrings data
           | none => c.1.name :: optStrings c.1.description)) ++ acc) []
     | .result ok err => sStrings ok ++ sStrings err
     | .tuple fields => fields.attach.foldr (fun f acc => sStrings f.1 ++ acc) []
     | .ref name => [name])
termination_by s => sizeOf s
decreasing_by
  all_goals
    first
    | (rcases kv with ⟨⟨k1, k2⟩, hmem⟩
       have := List.sizeOf_lt_of_mem hmem; simp at this ⊢; omega)
    | (rcases c with ⟨c1, hmem⟩
       have := List.sizeOf_lt_of_mem hmem
       rcases c1 with ⟨n, dd, cd⟩
       simp [VariantCase.data] at hm
       subst hm
       simp at this ⊢; omega)
    | (rcases f with ⟨f1, hmem⟩
       have := List.sizeOf_lt_of_mem hmem; simp at this ⊢; omega)
    | (simp; omega)
    | omega

/-- A JSON value containing no key and no string with the substring `oneOf`. -/
def cleanJ (j : Json) : Prop := ∀ x ∈ jStrings j, hasOneOf x = false

/-- A schema none of whose embedded strings contains the substring `oneOf`. -/
def cleanS (s : SchemaType) : Prop := ∀ x ∈ sStrings s, hasOneOf x = false

theorem mem_foldr_append_iff {α β : Type} (F : α → List β) (l : List α) (x : β) :
    x ∈ l.foldr (fun y acc => F y ++ acc) [] ↔ ∃ a ∈ l, x ∈ F a := by
  induction l with
  | nil => simp
  | cons b rest ih => simp [List.mem_append, ih]

theorem mem_attach_foldr_iff {α β : Type} {l : List α} (F : {x // x ∈ l} → List β) (x : β) :
    x ∈ l.attach.foldr (fun y acc => F y ++ acc) [] ↔
      ∃ a, ∃ h : a ∈ l, x ∈ F ⟨a, h⟩ := by
  rw [mem_foldr_append_iff]
  constructor
  · rintro ⟨⟨a, ha⟩, _, hx⟩
    exact ⟨a, ha, hx⟩
  · rintro ⟨a, ha, hx⟩
    exact ⟨⟨a, ha⟩, List.mem_attach _ _, hx⟩

theorem mem_jStrings_arr {xs : List Json} {x : String} :
    x ∈ jStrings (.arr xs) ↔ ∃ j ∈ xs, x ∈ jStrings j := by
  rw [jStrings, mem_attach_foldr_iff]
  constructor
  · rintro ⟨a, ha, hx⟩; exact ⟨a, ha, hx⟩
  · rintro ⟨a, ha, hx⟩; exact ⟨a, ha, hx⟩

theorem mem_jStrings_obj {kvs : List (String × Json)} {x : String} :
    x ∈ jStrings (.obj kvs) ↔ ∃ kv ∈ kvs, x = kv.1 ∨ x ∈ jStrings kv.2 := by
  rw [jStrings, mem_attach_foldr_iff]
  constructor
  · rintro ⟨a, ha, hx⟩
    rcases List.mem_cons.mp hx with h | h
    · exact ⟨a, ha, Or.inl h⟩
    · exact ⟨a, ha, Or.inr h⟩
  · rintro ⟨a, ha, hx⟩
    refine ⟨a, ha, ?_⟩
    rcases hx with h | h
    · exact h ▸ List.mem_cons_self _ _
    · exact List.mem_cons_of_mem _ h

theorem cleanJ_str {s : String} (h : hasOneOf s = false) : cleanJ (.str s) := by
  intro x hx
  rw [jStrings] at hx
  rcases List.mem_singleton.mp hx with rfl
  exact h

theorem cleanJ_num (n : Nat) : cleanJ (.num n) := by
  intro x hx
  rw [jStrings] at hx
  cases hx

theorem cleanJ_bool (b : Bool) : cleanJ (.bool b) := by
  intro x hx
  rw [jStrings] at hx
  cases hx

theorem cleanJ_arr {xs : List Json} (h : ∀ j ∈ xs, cleanJ j) : cleanJ (.arr xs) := by
  intro x hx
  obtain ⟨j, hj, hx⟩ := mem_jStrings_arr.mp hx
  exact h j hj x hx

theorem cleanJ_obj {kvs : List (String × Json)}
    (h : ∀ kv ∈ kvs, hasOneOf kv.1 = false ∧ cleanJ kv.2) : cleanJ (.obj kvs) := by
  intro x hx
  obtain ⟨kv, hkv, hx⟩ := mem_jStrings_obj.mp hx
  rcases hx with rfl | hx
  · exact (h kv hkv).1
  · exact (h kv hkv).2 x hx

theorem cleanJ_obj_elim {kvs : List (String × Json)} (h : cleanJ (.obj kvs)) :
    ∀ kv ∈ kvs, hasOneOf kv.1 = false ∧ cleanJ kv.2 := by
  intro kv hkv
  constructor
  · exact h kv.1 (mem_jStrings_obj.mpr ⟨kv, hkv, Or.inl rfl⟩)
  · intro x hx
    exact h x (mem_jStrings_obj.mpr ⟨kv, hkv, Or.inr hx⟩)

theorem mem_jinsert {l : List (String × Json)} {k : String} {v : Json}
    {kv : String × Json} (h : kv ∈ jinsert l k v) : kv ∈ l ∨ kv = (k, v) := by
  unfold jinsert at h
  split at h
  · obtain ⟨kv₀, hkv₀, hmap⟩ := List.mem_map.mp h
    by_cases he : kv₀.1 = k
    · right
      rw [← hmap, if_pos he]
    · left
      rw [← hmap, if_neg he]
      exact hkv₀
  · rcases List.mem_append.mp h with h1 | h1
    · exact Or.inl h1
    · exact Or.inr (List.mem_singleton.mp h1)

theorem cleanJ_jinsert {l : List (String × Json)} {k : String} {v : Json}
    (hl : cleanJ (.obj l)) (hk : hasOneOf k = false) (hv : cleanJ v) :
    cleanJ (.obj (jinsert l k v)) := by
  apply cleanJ_obj
  intro kv hkv
  rcases mem_jinsert hkv with h | rfl
  · exact cleanJ_obj_elim hl kv h
  · exact ⟨hk, hv⟩

theorem cleanJ_descObj {d : Option String}
    (hd : ∀ x ∈ optStrings d, hasOneOf x = false) : cleanJ (.obj (descObj d)) := by
  cases d with
  | none => exact cleanJ_obj (by intro kv hkv; cases hkv)
  | some dd =>
    apply cleanJ_obj
    intro kv hkv
    rcases List.mem_singleton.mp hkv with rfl
    constructor
    · show hasOneOf ("description") = false
      decide
    · exact cleanJ_str (hd dd (List.mem_singleton.mpr rfl))

theorem cleanJ_foldl_jinsert :
    ∀ (fields : List (String × SchemaType)) (acc : List (String × Json)),
      cleanJ (.obj acc) →
      (∀ kv ∈ fields, hasOneOf kv.1 = false ∧ cleanJ (to_anthropic_schema kv.2)) →
      cleanJ (.obj (fields.foldl
        (fun a kv => jinsert a kv.1 (to_anthropic_schema kv.2)) acc)) := by
  intro fields
  induction fields with
  | nil => intro acc hacc _; exact hacc
  | cons kv rest ih =>
    intro acc hacc hf
    rw [List.foldl_cons]
    refine ih _ (cleanJ_jinsert hacc (hf kv (List.mem_cons_self _ _)).1
      (hf kv (List.mem_cons_self _ _)).2) ?_
    intro kv' hkv'
    exact hf kv' (List.mem_cons_of_mem _ hkv')

theorem cleanS_desc {kind : TypeKind} {d : Option String} (h : cleanS (.mk kind d)) :
    ∀ x ∈ optStrings d, hasOneOf x = false := by
  intro x hx
  apply h
  rw [sStrings.eq_def]
  exact List.mem_append.mpr (Or.inl hx)

theorem hasOneOf_defs_ref {name : String} (h : hasOneOf name = false) :
    hasOneOf (("#/definitions/") ++ name) = false := by
  show containsSeq ("oneOf").data (("#/definitions/").data ++ name.data) = false
  rw [show (("#/definitions/").data ++ name.data) =
    ('#' :: '/' :: 'd' :: 'e' :: 'f' :: 'i' :: 'n' :: 'i' :: 't' :: 'i' :: 'o' :: 'n' ::
      's' :: '/' :: name.data) from rfl]
  simpa [containsSeq, startsWithChars] using h

theorem cleanS_object_elim {props : List (String × SchemaType)} {req : List String}
    {d : Option String} (h : cleanS (.mk (.object props req) d)) :
    (∀ kv ∈ props, hasOneOf kv.1 = false ∧ cleanS kv.2) ∧
    (∀ r ∈ req, hasOneOf r = false) := by
  have hsub : ∀ x, (∃ kv ∈ props, x = kv.1 ∨ x ∈ sStrings kv.2) ∨ x ∈ req →
      x ∈ sStrings (.mk (.object props req) d) := by
    intro x hx
    rw [sStrings.eq_def]
    refine List.mem_append.mpr (Or.inr (List.mem_append.mpr ?_))
    rcases hx with ⟨kv, hkv, hx⟩ | hx
    · left
      rw [mem_attach_foldr_iff]
      refine ⟨kv, hkv, ?_⟩
      rcases hx with rfl | hx
      · exact List.mem_cons_self _ _
      · exact List.mem_cons_of_mem _ hx
    · exact Or.inr hx
  constructor
  · intro kv hkv
    exact ⟨h _ (hsub _ (Or.inl ⟨kv, hkv, Or.inl rfl⟩)),
      fun x hx => h _ (hsub _ (Or.inl ⟨kv, hkv, Or.inr hx⟩))⟩
  · intro r hr
    exact h _ (hsub _ (Or.inr hr))

theorem cleanS_array_elim {items : SchemaType} {d : Option String}
    (h : cleanS (.mk (.array items) d)) : cleanS items := by
  intro x hx
  apply h
  rw [sStrings.eq_def]
  exact List.mem_append.mpr (Or.inr hx)

theorem cleanS_set_elim {items : SchemaType} {o : Bool} {d : Option String}
    (h : cleanS (.mk (.set items o) d)) : cleanS items := by
  intro x hx
  apply h
  rw [sStrings.eq_def]
  exact List.mem_append.mpr (Or.inr hx)

theorem cleanS_map_elim {key value : SchemaType} {o : Bool} {d : Option String}
    (h : cleanS (.mk (.map key value o) d)) : cleanS key ∧ cleanS value := by
  constructor <;> intro x hx <;> apply h <;> rw [sStrings.eq_def]
  · exact List.mem_append.mpr (Or.inr (List.mem_append.mpr (Or.inl hx)))
  · exact List.mem_append.mpr (Or.inr (List.mem_append.mpr (Or.inr hx)))

theorem cleanS_enum_elim {variants : List String} {d : Option String}
    (h : cleanS (.mk (.enum variants) d)) : ∀ v ∈ variants, hasOneOf v = false := by
  intro v hv
  apply h
  rw [sStrings.eq_def]
  exact List.mem_append.mpr (Or.inr hv)

theorem cleanS_taggedUnion_elim {tf : String} {tvs : List String}
    {dfs : List (String × SchemaType)} {d : Option String}
    (h : cleanS (.mk (.taggedUnion tf tvs dfs) d)) :
    hasOneOf tf = false ∧ (∀ v ∈ tvs, hasOneOf v = false) ∧
    (∀ kv ∈ dfs, hasOneOf kv.1 = false ∧ cleanS kv.2) := by
  have hsub : ∀ x, (x = tf ∨ x ∈ tvs ∨ (∃ kv ∈ dfs, x = kv.1 ∨ x ∈ sStrings kv.2)) →
      x ∈ sStrings (.mk (.taggedUnion tf tvs dfs) d) := by
    intro x hx
    rw [sStrings.eq_def]
    refine List.mem_append.mpr (Or.inr ?_)
    rcases hx with rfl | hx | ⟨kv, hkv, hx⟩
    · exact List.mem_cons_self _ _
    · exact List.mem_cons_of_mem _ (List.mem_append.mpr (Or.inl hx))
    · refine List.mem_cons_of_mem _ (List.mem_append.mpr (Or.inr ?_))
      rw [mem_attach_foldr_iff]
      refine ⟨kv, hkv, ?_⟩
      rcases hx with rfl | hx
      · exact List.mem_cons_self _ _
      · exact List.mem_cons_of_mem _ hx
  exact ⟨h _ (hsub _ (Or.inl rfl)),
    fun v hv => h _ (hsub _ (Or.inr (Or.inl hv))),
    fun kv hkv => ⟨h _ (hsub _ (Or.inr (Or.inr ⟨kv, hkv, Or.inl rfl⟩))),
      fun x hx => h _ (hsub _ (Or.inr (Or.inr ⟨kv, hkv, Or.inr hx⟩)))⟩⟩

theorem cleanS_result_elim {ok err : SchemaType} {d : Option String}
    (h : cleanS (.mk (.result ok err) d)) : cleanS ok ∧ cleanS err := by
  constructor <;> intro x hx <;> apply h <;> rw [sStrings.eq_def]
  · exact List.mem_append.mpr (Or.inr (List.mem_append.mpr (Or.inl hx)))
  · exact List.mem_append.mpr (Or.inr (List.mem_append.mpr (Or.inr hx)))

theorem cleanS_tuple_elim {fields : List SchemaType} {d : Option String}
    (h : cleanS (.mk (.tuple fields) d)) : ∀ f ∈ fields, cleanS f := by
  intro f hf x hx
  apply h
  rw [sStrings.eq_def]
  refine List.mem_append.mpr (Or.inr ?_)
  rw [mem_attach_foldr_iff]
  exact ⟨f, hf, hx⟩

theorem cleanS_ref_elim {name : String} {d : Option String}
    (h : cleanS (.mk (.ref name) d)) : hasOneOf name = false := by
  apply h
  rw [sStrings.eq_def]
  exact List.mem_append.mpr (Or.inr (List.mem_singleton.mpr rfl))

theorem sStrings_variant_sub {cases : List VariantCase} {d : Option String}
    {c : VariantCase} (hc : c ∈ cases) :
    c.name ∈ sStrings (.mk (.variant cases) d) ∧
    (∀ data, c.data = some data →
      ∀ x ∈ sStrings data, x ∈ sStrings (.mk (.variant cases) d)) := by
  constructor
  · rw [sStrings.eq_def]
    refine List.mem_append.mpr (Or.inr ?_)
    rw [mem_attach_foldr_iff]
    refine ⟨c, hc, ?_⟩
    rcases c with ⟨n, dataOpt, cd⟩
    cases dataOpt
    · exact List.mem_cons_self _ _
    · exact List.mem_append.mpr (Or.inl (List.mem_cons_self _ _))
  · intro data hdata x hx
    rw [sStrings.eq_def]
    refine List.mem_append.mpr (Or.inr ?_)
    rw [mem_attach_foldr_iff]
    refine ⟨c, hc, ?_⟩
    rcases c with ⟨n, dataOpt, cd⟩
    simp only [VariantCase.data] at hdata
    subst hdata
    exact List.mem_append.mpr (Or.inr hx)

theorem cleanS_variant_elim {cases : List VariantCase} {d : Option String}
    (h : cleanS (.mk (.variant cases) d)) :
    (∀ c ∈ cases, hasOneOf c.name = false) ∧
    (∀ kv ∈ allFields cases, hasOneOf kv.1 = false ∧ cleanS kv.2) := by
  constructor
  · intro c hc
    exact h _ (sStrings_variant_sub hc).1
  · intro kv hkv
    obtain ⟨c, hc, props, req, dd, n, cd, rfl, hkvp⟩ := allFields_provenance hkv
    have hdata : (VariantCase.mk n (some (.mk (.object props req) dd)) cd).data
        = some (.mk (.object props req) dd) := rfl
    have hsub := (@sStrings_variant_sub _ d _ hc).2 _ hdata
    have hobj : ∀ x, (x = kv.1 ∨ x ∈ sStrings kv.2) →
        x ∈ sStrings (.mk (.object props req) dd) := by
      intro x hx
      rw [sStrings.eq_def]
      refine List.mem_append.mpr (Or.inr (List.mem_append.mpr (Or.inl ?_)))
      rw [mem_attach_foldr_iff]
      refine ⟨kv, hkvp, ?_⟩
      rcases hx with rfl | hx
      · exact List.mem_cons_self _ _
      · exact List.mem_cons_of_mem _ hx
    exact ⟨h _ (hsub _ (hobj _ (Or.inl rfl))),
      fun x hx => h _ (hsub _ (hobj _ (Or.inr hx)))⟩

/-- Attach-free form of the `TaggedUnion` arm of `to_anthropic_schema`. -/
theorem to_anthropic_taggedUnion (tf : String) (tvs : List String)
    (dfs : List (String × SchemaType)) (d : Option String) :
    to_anthropic_schema (.mk (.taggedUnion tf tvs dfs) d) =
      .obj (jinsert
        (jinsert (jinsert (descObj d) ("type") (.str ("object")))
          ("properties") (.obj (dfs.foldl
            (fun acc kv => jinsert acc kv.1 (to_anthropic_schema kv.2))
            [(tf, .obj [(("type"), .str ("string")), (("enum"), .arr (tvs.map .str))])])))
        ("required") (.arr [.str tf])) := by
  rw [to_anthropic_schema]
  rw [attach_foldl_jinsert]

theorem attach_map_to_anthropic (l : List SchemaType) :
    l.attach.map (fun f => to_anthropic_schema f.1) = l.map to_anthropic_schema :=
  List.attach_map_val l to_anthropic_schema

/-- Attach-free form of the nonempty `Tuple` arm of `to_anthropic_schema`. -/
theorem to_anthropic_tuple {fields : List SchemaType} (d : Option String)
    (h : ¬ fields.isEmpty = true) :
    to_anthropic_schema (.mk (.tuple fields) d) =
      .obj (jinsert (jinsert (jinsert
        (jinsert (descObj d) ("type") (.str ("array")))
        ("prefixItems") (.arr (fields.map to_anthropic_schema)))
        ("minItems") (.num fields.length))
        ("maxItems") (.num fields.length)) := by
  rw [to_anthropic_schema]
  rw [if_neg h, attach_map_to_anthropic]

theorem to_anthropic_map_str (key value : SchemaType) (o : Bool) (d : Option String)
    (h : key.kind = .string) :
    to_anthropic_schema (.mk (.map key value o) d) =
      .obj (jinsert (jinsert (descObj d) ("type") (.str ("object")))
        ("additionalProperties") (to_anthropic_schema value)) := by
  rw [to_anthropic_schema, h]

theorem to_anthropic_map_other (key value : SchemaType) (o : Bool) (d : Option String)
    (h : ¬ key.kind = .string) :
    to_anthropic_schema (.mk (.map key value o) d) =
      .obj (jinsert (jinsert (descObj d) ("type") (.str ("array")))
        ("items") (.obj
          [ (("type"), .str ("array")),
            (("prefixItems"), .arr [to_anthropic_schema key, to_anthropic_schema value]),
            (("minItems"), .num 2),
            (("maxItems"), .num 2) ])) := by
  rw [to_anthropic_schema]
  split
  · rename_i heq
    exact absurd heq h
  · rfl

theorem cleanJ_arr_strs {R : List String} (h : ∀ r ∈ R, hasOneOf r = false) :
    cleanJ (.arr (R.map .str)) := by
  apply cleanJ_arr
  intro j hj
  obtain ⟨r, hr, rfl⟩ := List.mem_map.mp hj
  exact cleanJ_str (h r hr)

theorem cleanJ_props_map {props : List (String × SchemaType)}
    (h : ∀ kv ∈ props, hasOneOf kv.1 = false ∧ cleanJ (to_anthropic_schema kv.2)) :
    cleanJ (.obj (props.map (fun kv => (kv.1, to_anthropic_schema kv.2)))) := by
  apply cleanJ_obj
  intro kv' hkv'
  obtain ⟨kv, hkv, rfl⟩ := List.mem_map.mp hkv'
  exact ⟨(h kv hkv).1, (h kv hkv).2⟩

/-- C2 (amended): for every schema none of whose embedded strings contains the
substring `oneOf`, the anthropic projection contains no key and no string with
the substring `oneOf` anywhere. -/
theorem C2_no_oneOf (s : SchemaType) :
    cleanS s → cleanJ (to_anthropic_schema s) := by
  induction s using to_anthropic_schema.induct with
  | case1 d =>
    intro h
    rw [to_anthropic_schema]
    exact cleanJ_jinsert (cleanJ_descObj (cleanS_desc h)) (by decide)
      (cleanJ_str (by decide))
  | case2 k d =>
    intro h
    rw [to_anthropic_schema]
    exact cleanJ_jinsert (cleanJ_descObj (cleanS_desc h)) (by decide)
      (cleanJ_str (by decide))
  | case3 k d =>
    intro h
    rw [to_anthropic_schema]
    exact cleanJ_jinsert (cleanJ_descObj (cleanS_desc h)) (by decide)
      (cleanJ_str (by decide))
  | case4 d =>
    intro h
    rw [to_anthropic_schema]
    exact cleanJ_jinsert (cleanJ_descObj (cleanS_desc h)) (by decide)
      (cleanJ_str (by decide))
  | case5 d =>
    intro h
    rw [to_anthropic_schema]
    exact cleanJ_jinsert (cleanJ_descObj (cleanS_desc h)) (by decide)
      (cleanJ_str (by decide))
  | case6 properties required d ih =>
    intro h
    obtain ⟨hprops, hreq⟩ := cleanS_object_elim h
    rw [to_anthropic_object]
    refine cleanJ_jinsert (cleanJ_jinsert
      (cleanJ_jinsert (cleanJ_descObj (cleanS_desc h)) (by decide)
        (cleanJ_str (by decide)))
      (by decide) (cleanJ_props_map ?_)) (by decide) (cleanJ_arr_strs hreq)
    intro kv hkv
    exact ⟨(hprops kv hkv).1, ih ⟨kv, hkv⟩ (hprops kv hkv).2⟩
  | case7 items d ih =>
    intro h
    rw [to_anthropic_schema]
    exact cleanJ_jinsert (cleanJ_jinsert (cleanJ_descObj (cleanS_desc h)) (by decide)
      (cleanJ_str (by decide))) (by decide) (ih (cleanS_array_elim h))
  | case8 items o d ih =>
    intro h
    rw [to_anthropic_schema]
    exact cleanJ_jinsert (cleanJ_jinsert (cleanJ_jinsert
      (cleanJ_descObj (cleanS_desc h)) (by decide) (cleanJ_str (by decide)))
      (by decide) (ih (cleanS_set_elim h))) (by decide) (cleanJ_bool true)
  | case9 key value o d hk ih =>
    intro h
    rw [to_anthropic_map_str _ _ _ _ hk]
    exact cleanJ_jinsert (cleanJ_jinsert (cleanJ_descObj (cleanS_desc h)) (by decide)
      (cleanJ_str (by decide))) (by decide) (ih (cleanS_map_elim h).2)
  | case10 key value o d hk ihk ihv =>
    intro h
    rw [to_anthropic_map_other _ _ _ _ (fun he => hk he)]
    refine cleanJ_jinsert (cleanJ_jinsert (cleanJ_descObj (cleanS_desc h)) (by decide)
      (cleanJ_str (by decide))) (by decide) (cleanJ_obj ?_)
    intro kv hkv
    simp only [List.mem_cons, List.not_mem_nil, or_false] at hkv
    rcases hkv with rfl | rfl | rfl | rfl
    · exact ⟨show hasOneOf ("type") = false by decide, cleanJ_str (by decide)⟩
    · refine ⟨show hasOneOf ("prefixItems") = false by decide, cleanJ_arr ?_⟩
      intro j hj
      simp only [List.mem_cons, List.not_mem_nil, or_false] at hj
      rcases hj with rfl | rfl
      · exact ihk (cleanS_map_elim h).1
      · exact ihv (cleanS_map_elim h).2
    · exact ⟨show hasOneOf ("minItems") = false by decide, cleanJ_num 2⟩
    · exact ⟨show hasOneOf ("maxItems") = false by decide, cleanJ_num 2⟩
  | case11 variants d =>
    intro h
    rw [to_anthropic_schema]
    exact cleanJ_jinsert (cleanJ_jinsert (cleanJ_descObj (cleanS_desc h)) (by decide)
      (cleanJ_str (by decide))) (by decide) (cleanJ_arr_strs (cleanS_enum_elim h))
  | case12 tf tvs dfs d ih =>
    intro h
    obtain ⟨htf, htvs, hdfs⟩ := cleanS_taggedUnion_elim h
    rw [to_anthropic_taggedUnion]
    refine cleanJ_jinsert (cleanJ_jinsert
      (cleanJ_jinsert (cleanJ_descObj (cleanS_desc h)) (by decide)
        (cleanJ_str (by decide)))
      (by decide) (cleanJ_foldl_jinsert _ _ ?_ ?_)) (by decide) ?_
    · apply cleanJ_obj
      intro kv hkv
      rcases List.mem_singleton.mp hkv with rfl
      refine ⟨htf, cleanJ_obj ?_⟩
      intro kv hkv
      simp only [List.mem_cons, List.not_mem_nil, or_false] at hkv
      rcases hkv with rfl | rfl
      · exact ⟨show hasOneOf ("type") = false by decide, cleanJ_str (by decide)⟩
      · exact ⟨show hasOneOf ("enum") = false by decide, cleanJ_arr_strs htvs⟩
    · intro kv hkv
      exact ⟨(hdfs kv hkv).1, ih ⟨kv, hkv⟩ (hdfs kv hkv).2⟩
    · apply cleanJ_arr
      intro j hj
      rcases List.mem_singleton.mp hj with rfl
      exact cleanJ_str htf
  | case13 cases d ih =>
    intro h
    obtain ⟨hnames, hfields⟩ := cleanS_variant_elim h
    rw [to_anthropic_variant]
    refine cleanJ_jinsert (cleanJ_jinsert
      (cleanJ_jinsert (cleanJ_descObj (cleanS_desc h)) (by decide)
        (cleanJ_str (by decide)))
      (by decide) (cleanJ_foldl_jinsert _ _ ?_ ?_)) (by decide) ?_
    · apply cleanJ_obj
      intro kv hkv
      rcases List.mem_singleton.mp hkv with rfl
      refine ⟨show hasOneOf ("type") = false by decide, cleanJ_obj ?_⟩
      intro kv hkv
      simp only [List.mem_cons, List.not_mem_nil, or_false] at hkv
      rcases hkv with rfl | rfl
      · exact ⟨show hasOneOf ("type") = false by decide, cleanJ_str (by decide)⟩
      · refine ⟨show hasOneOf ("enum") = false by decide, cleanJ_arr_strs ?_⟩
        intro x hx
        obtain ⟨c, hc, rfl⟩ := List.mem_map.mp hx
        exact hnames c hc
    · intro kv hkv
      exact ⟨(hfields kv hkv).1, ih ⟨kv, hkv⟩ (hfields kv hkv).2⟩
    · apply cleanJ_arr
      intro j hj
      rcases List.mem_singleton.mp hj with rfl
      exact cleanJ_str (by decide)
  | case14 ok err d iho ihe =>
    intro h
    rw [to_anthropic_schema]
    refine cleanJ_jinsert (cleanJ_jinsert
      (cleanJ_jinsert (cleanJ_descObj (cleanS_desc h)) (by decide)
        (cleanJ_str (by decide)))
      (by decide) (cleanJ_obj ?_)) (by decide) (cleanJ_str (by decide))
    intro kv hkv
    simp only [List.mem_cons, List.not_mem_nil, or_false] at hkv
    rcases hkv with rfl | rfl
    · exact ⟨show hasOneOf ("ok") = false by decide, iho (cleanS_result_elim h).1⟩
    · exact ⟨show hasOneOf ("error") = false by decide, ihe (cleanS_result_elim h).2⟩
  | case15 fields d hemp =>
    intro h
    rw [to_anthropic_schema, if_pos hemp]
    exact cleanJ_jinsert (cleanJ_jinsert (cleanJ_descObj (cleanS_desc h)) (by decide)
      (cleanJ_str (by decide))) (by decide) (cleanJ_num 0)
  | case16 fields d hemp ih =>
    intro h
    rw [to_anthropic_tuple d hemp]
    refine cleanJ_jinsert (cleanJ_jinsert (cleanJ_jinsert
      (cleanJ_jinsert (cleanJ_descObj (cleanS_desc h)) (by decide)
        (cleanJ_str (by decide)))
      (by decide) (cleanJ_arr ?_)) (by decide) (cleanJ_num _)) (by decide) (cleanJ_num _)
    intro j hj
    obtain ⟨f, hf, rfl⟩ := List.mem_map.mp hj
    exact ih ⟨f, hf⟩ (cleanS_tuple_elim h f hf)
  | case17 name d =>
    intro h
    rw [to_anthropic_schema]
    apply cleanJ_obj
    intro kv hkv
    rcases List.mem_singleton.mp hkv with rfl
    exact ⟨show hasOneOf ("$ref") = false by decide,
      cleanJ_str (hasOneOf_defs_ref (cleanS_ref_elim h))⟩

/-- Witness for the amended C2 on a concrete clean schema. -/
theorem C2_no_oneOf_witness :
    cleanS (.mk .string (some ("a plain description"))) ∧
    cleanJ (to_anthropic_schema (.mk .string (some ("a plain description")))) := by
  have hc : cleanS (.mk .string (some ("a plain description"))) := by
    intro x hx
    rw [sStrings.eq_def] at hx
    simp only [optStrings, List.append_nil] at hx
    rcases List.mem_singleton.mp hx with rfl
    decide
  exact ⟨hc, C2_no_oneOf _ hc⟩

/-- C2 counterexample: a node description that itself contains `oneOf` is
copied verbatim into the output, so the claim as stated (over every input)
fails. -/
theorem C2_counterexample :
    ("uses oneOf") ∈
      jStrings (to_anthropic_schema (.mk .string (some ("uses oneOf")))) ∧
    hasOneOf ("uses oneOf") = true := by
  constructor
  · rw [to_anthropic_schema]
    apply mem_jStrings_obj.mpr
    refine ⟨(("description"), .str ("uses oneOf")), ?_, Or.inr ?_⟩
    · simp [jinsert, descObj]
    · rw [jStrings]
      exact List.mem_singleton.mpr rfl
  · decide
